import Mathlib

/-
Verification of the SPSS-to-Excel label-resolution and tabular-materialization
pipeline (src/spss2excel_streamlit.py).

The embedding models the dynamically typed Python cell values that flow through
the pipeline as the inductive type `Val`, Python dictionaries as association
lists looked up with Python equality (`pyEq`), and operations that can raise a
Python exception (KeyError on an out-of-range column index, AttributeError from
calling strip on a non-string label, TypeError from hashing an unhashable
value) as `Option`-returning functions, `none` being a raised exception.
-/

/-- A dynamically typed Python value as it appears in the pipeline: record
cells, variable names, labels and value codes.  Floats are modelled as
rationals (every SPSS code is a small integer, exactly representable in a
double; NaN payloads do not occur in the claims).  `vlist` models an
unexpected composite value (a Python list). -/
inductive Val where
  | vint (n : Int)
  | vfloat (q : ℚ)
  | vstr (s : String)
  | vbytes (b : List Nat)
  | vnone
  | vlist (l : List Val)

mutual

/-- Python equality (`==`) on the values of the model.  Numbers of different
numeric types compare by value (int 1 == float 1.0 in Python); values of
unrelated types compare unequal; lists compare elementwise. -/
def pyEq : Val → Val → Bool
  | .vint a, .vint b => decide (a = b)
  | .vint a, .vfloat q => decide ((a : ℚ) = q)
  | .vfloat q, .vint a => decide (q = (a : ℚ))
  | .vfloat a, .vfloat b => decide (a = b)
  | .vstr a, .vstr b => decide (a = b)
  | .vbytes a, .vbytes b => decide (a = b)
  | .vnone, .vnone => true
  | .vlist a, .vlist b => pyEqList a b
  | _, _ => false

/-- Elementwise Python equality of two lists. -/
def pyEqList : List Val → List Val → Bool
  | [], [] => true
  | a :: as, b :: bs => pyEq a b && pyEqList as bs
  | _, _ => false

end

/-- Whether a value is hashable in Python, hence usable as a dictionary key or
as the operand of a membership test on a dictionary.  Lists are unhashable. -/
def pyHashable : Val → Bool
  | .vlist _ => false
  | _ => true

/-- The Python runtime type tag of a value (used to state type-mismatch
properties of the value-label lookup). -/
inductive PyType where
  | int | float | str | bytes | nonetype | list
deriving DecidableEq

/-- Tag of a value's Python type. -/
def typeOf : Val → PyType
  | .vint _ => .int
  | .vfloat _ => .float
  | .vstr _ => .str
  | .vbytes _ => .bytes
  | .vnone => .nonetype
  | .vlist _ => .list

/-- A Python dictionary with `Val` keys, as an association list.  Keys are
unique up to `pyEq`; lookup scans for the first `pyEq`-equal key. -/
abbrev PyDict (α : Type) := List (Val × α)

/-- Lookup of a key in a dictionary; `none` is Python's "key absent". -/
def dictFind {α : Type} : PyDict α → Val → Option α
  | [], _ => none
  | (k, v) :: rest, key => if pyEq key k then some v else dictFind rest key

/-- Python `d.get(key)` / `key in d`: hashing the key first, so an unhashable
key raises TypeError (the outer `none`); otherwise the inner `Option` is the
lookup result. -/
def pyGet {α : Type} (d : PyDict α) (k : Val) : Option (Option α) :=
  if pyHashable k then some (dictFind d k) else none

/-- Insertion keeping the first stored key object on overwrite, as a Python
dict does. -/
def insertAux {α : Type} : PyDict α → Val → α → PyDict α
  | [], k, v => [(k, v)]
  | (k', v') :: rest, k, v =>
      if pyEq k k' then (k', v) :: rest else (k', v') :: insertAux rest k v

/-- Python `d[key] = value`: raises TypeError on an unhashable key. -/
def pyInsert {α : Type} (d : PyDict α) (k : Val) (v : α) : Option (PyDict α) :=
  if pyHashable k then some (insertAux d k v) else none

/-- Sequential fold over a list where each step may raise (models a Python
`for` loop whose body may raise). -/
def foldlOpt {α β : Type} (f : β → α → Option β) : β → List α → Option β
  | init, [] => some init
  | init, a :: l =>
      match f init a with
      | some b => foldlOpt f b l
      | none => none

/-- Sequential map over a list where each step may raise (models a Python
`for` loop appending to an output list). -/
def mapMOpt {α β : Type} (f : α → Option β) : List α → Option (List β)
  | [] => some []
  | a :: l =>
      match f a, mapMOpt f l with
      | some b, some bs => some (b :: bs)
      | _, _ => none

/-- Whether a byte is a UTF-8 continuation byte (0x80–0xBF). -/
def isCont (b : Nat) : Bool := 0x80 ≤ b && b ≤ 0xBF

/-- UTF-8 decoding with `errors="ignore"`: a valid sequence at the head is
decoded to its scalar value, any byte that does not start a valid sequence is
dropped, and decoding continues; it never fails.  Bytes of a Python `bytes`
object are < 256; any out-of-range number is likewise dropped as invalid. -/
def utf8DecodeIgnore : List Nat → List Char
  | [] => []
  | b1 :: t1 =>
      if b1 < 0x80 then Char.ofNat b1 :: utf8DecodeIgnore t1
      else if 0xC2 ≤ b1 && b1 ≤ 0xDF then
        match t1 with
        | b2 :: t2 =>
            if isCont b2 then
              Char.ofNat ((b1 - 0xC0) * 0x40 + (b2 - 0x80)) :: utf8DecodeIgnore t2
            else utf8DecodeIgnore (b2 :: t2)
        | [] => []
      else if 0xE0 ≤ b1 && b1 ≤ 0xEF then
        match t1 with
        | b2 :: t2 =>
            if (if b1 = 0xE0 then 0xA0 ≤ b2 && b2 ≤ 0xBF
                else if b1 = 0xED then 0x80 ≤ b2 && b2 ≤ 0x9F
                else isCont b2) then
              match t2 with
              | b3 :: t3 =>
                  if isCont b3 then
                    Char.ofNat ((b1 - 0xE0) * 0x1000 + (b2 - 0x80) * 0x40 + (b3 - 0x80))
                      :: utf8DecodeIgnore t3
                  else utf8DecodeIgnore (b2 :: b3 :: t3)
              | [] => []
            else utf8DecodeIgnore (b2 :: t2)
        | [] => []
      else if 0xF0 ≤ b1 && b1 ≤ 0xF4 then
        match t1 with
        | b2 :: t2 =>
            if (if b1 = 0xF0 then 0x90 ≤ b2 && b2 ≤ 0xBF
                else if b1 = 0xF4 then 0x80 ≤ b2 && b2 ≤ 0x8F
                else isCont b2) then
              match t2 with
              | b3 :: t3 =>
                  if isCont b3 then
                    match t3 with
                    | b4 :: t4 =>
                        if isCont b4 then
                          Char.ofNat ((b1 - 0xF0) * 0x40000 + (b2 - 0x80) * 0x1000
                              + (b3 - 0x80) * 0x40 + (b4 - 0x80))
                            :: utf8DecodeIgnore t4
                        else utf8DecodeIgnore (b2 :: b3 :: b4 :: t4)
                    | [] => []
                  else utf8DecodeIgnore (b2 :: b3 :: t3)
              | [] => []
            else utf8DecodeIgnore (b2 :: t2)
        | [] => []
      else utf8DecodeIgnore t1
termination_by l => l.length
decreasing_by
all_goals simp [List.length_cons]
all_goals omega

/-- `bytes.decode("utf-8", errors="ignore")` as a `String`. -/
def utf8DecodeIgnoreStr (b : List Nat) : String := String.mk (utf8DecodeIgnore b)

/-- Source `decode_bytes`: a bytes value is decoded to text with UTF-8 and
invalid sequences ignored; every other value is returned unchanged. -/
def decode_bytes (x : Val) : Val :=
  match x with
  | .vbytes b => .vstr (utf8DecodeIgnoreStr b)
  | _ => x

/-- Whitespace for Python str.strip(): the characters str.isspace() accepts. -/
def isPySpace (c : Char) : Bool :=
  let n := c.toNat
  (0x9 ≤ n && n ≤ 0xD) || n = 0x20 || (0x1C ≤ n && n ≤ 0x1F) || n = 0x85 ||
    n = 0xA0 || n = 0x1680 || (0x2000 ≤ n && n ≤ 0x200A) || n = 0x2028 ||
    n = 0x2029 || n = 0x202F || n = 0x205F || n = 0x3000

/-- Python str.strip(): remove leading and trailing whitespace. -/
def pyStrip (s : String) : String :=
  String.mk (((s.data.dropWhile isPySpace).reverse.dropWhile isPySpace).reverse)

/-- Python str() / f-string conversion of a value.  Only the string case is
reachable in the pipeline (variable names are decoded from bytes or str before
being formatted); the remaining cases are a best-effort rendering and no claim
depends on them (Python's exact float and container reprs are not modelled). -/
def pyStr : Val → String
  | .vstr s => s
  | .vint n => toString n
  | .vnone => "None"
  | .vfloat q => toString q.num ++ "/" ++ toString q.den
  | .vbytes b => toString b
  | .vlist _ => "[...]"

/-- The raw structures the SAV reader collaborator hands to `process_sav`:
`reader.header`, `reader.varLabels`, `reader.valueLabels`, `reader.all()`.
The temp-file plumbing and the binary parse are the collaborator's
(out of scope); the resolver consumes these decoded structures only. -/
structure SavData where
  header : List Val
  varLabels : PyDict Val
  valueLabels : PyDict (PyDict Val)
  records : List (List Val)

/-- Source: `headers_dict[i] = decode_bytes(h)` for `i, h` in `enumerate(header)`.
The keys are the contiguous indices 0..n-1, so the dict is a list indexed by
position. -/
def build_headers_dict (header : List Val) : List Val :=
  header.map decode_bytes

/-- Source: `var_labels_dict[decode_bytes(var_key)] = decode_bytes(var_label)`
over `varLabels.items()`.  (`if varLabels:` only skips the loop when the dict
is empty or None, which the empty list also models.) -/
def build_var_labels_dict (varLabels : PyDict Val) : Option (PyDict Val) :=
  foldlOpt (fun d p => pyInsert d (decode_bytes p.1) (decode_bytes p.2)) [] varLabels

/-- Source: `converted[val_code] = decode_bytes(val_label)` over one
variable's `val_dict.items()` — codes are NOT decoded, labels are. -/
def convert_value_labels (val_dict : PyDict Val) : Option (PyDict Val) :=
  foldlOpt (fun d p => pyInsert d p.1 (decode_bytes p.2)) [] val_dict

/-- Source: `value_labels_dict[decode_bytes(var_key)] = converted` over
`valueLabels.items()`. -/
def build_value_labels_dict (valueLabels : PyDict (PyDict Val)) :
    Option (PyDict (PyDict Val)) :=
  foldlOpt
    (fun d p =>
      match convert_value_labels p.2 with
      | some converted => pyInsert d (decode_bytes p.1) converted
      | none => none)
    [] valueLabels

/-- Python `.strip()` on the stored label value; `none` models the
AttributeError Python raises when the stored value is not a string. -/
def strip_label : Val → Option String
  | .vstr s => some (pyStrip s)
  | _ => none

/-- Source, one iteration of the final-header loop:
`label = var_labels_dict.get(var_name, "").strip()` and
`final_headers.append(f"{var_name} ({label})" if label else var_name)`.
A non-empty string is truthy in Python, an empty one falsy. -/
def make_final_header (var_labels_dict : PyDict Val) (var_name : Val) : Option Val :=
  match pyGet var_labels_dict var_name with
  | none => none
  | some stored =>
      match strip_label (stored.getD (.vstr "")) with
      | none => none
      | some label =>
          some (if label.isEmpty then var_name
                else .vstr (pyStr var_name ++ " (" ++ label ++ ")"))

/-- Source: `for i in range(len(headers_dict)): ... final_headers.append(...)`,
iterating the columns in order. -/
def build_final_headers (headers_dict : List Val) (var_labels_dict : PyDict Val) :
    Option (List Val) :=
  mapMOpt (make_final_header var_labels_dict) headers_dict

/-- Source, one cell of the row loop: `var_name = headers_dict[col_idx]`
(KeyError when the record is longer than the header, modelled by the optional
index), `labels_for_var = value_labels_dict.get(var_name)`, then
`labels_for_var[val]` when `labels_for_var is not None and val in labels_for_var`
else `decode_bytes(val)`.  The membership test hashes `val`, so an unhashable
cell raises TypeError; thanks to the short-circuit `and`, only when a table
exists for the column. -/
def resolve_cell (headers_dict : List Val) (value_labels_dict : PyDict (PyDict Val))
    (col_idx : Nat) (val : Val) : Option Val :=
  match headers_dict[col_idx]? with
  | none => none
  | some var_name =>
      match pyGet value_labels_dict var_name with
      | none => none
      | some (some labels_for_var) =>
          match pyGet labels_for_var val with
          | none => none
          | some (some lbl) => some lbl
          | some none => some (decode_bytes val)
      | some none => some (decode_bytes val)

/-- Source: `for col_idx, val in enumerate(record): ... row.append(...)`. -/
def resolve_record (headers_dict : List Val) (value_labels_dict : PyDict (PyDict Val))
    (record : List Val) : Option (List Val) :=
  mapMOpt (fun p => resolve_cell headers_dict value_labels_dict p.1 p.2) record.enum

/-- Source: `for idx, record in enumerate(records): if idx == 0: continue ...
rows.append(row)` — every record except the one at index 0 is resolved, in
order. -/
def build_rows (headers_dict : List Val) (value_labels_dict : PyDict (PyDict Val))
    (records : List (List Val)) : Option (List (List Val)) :=
  mapMOpt (resolve_record headers_dict value_labels_dict) (records.drop 1)

/-- Source `process_sav`, from the point where the reader's structures are in
hand: builds the decoded dicts, the final headers and the resolved rows, and
returns `(rows, final_headers, value_labels_dict)`. -/
def process_sav (d : SavData) :
    Option (List (List Val) × List Val × PyDict (PyDict Val)) :=
  let headers_dict := build_headers_dict d.header
  match build_var_labels_dict d.varLabels with
  | none => none
  | some var_labels_dict =>
      match build_value_labels_dict d.valueLabels with
      | none => none
      | some value_labels_dict =>
          match build_final_headers headers_dict var_labels_dict with
          | none => none
          | some final_headers =>
              match build_rows headers_dict value_labels_dict d.records with
              | none => none
              | some rows => some (rows, final_headers, value_labels_dict)

/-- Whether a value is a Python str. -/
def isStr : Val → Bool
  | .vstr _ => true
  | _ => false

/-- Whether a value is text-like: a str or a bytes (so `decode_bytes` turns it
into a str). -/
def strLike : Val → Bool
  | .vstr _ => true
  | .vbytes _ => true
  | _ => false

/-- Collaborator typing of `reader.varLabels`: hashable keys, string-or-bytes
labels (so `.strip()` is defined on the decoded label). -/
def wf_varLabels (vl : PyDict Val) : Bool :=
  vl.all (fun p => pyHashable p.1 && strLike p.2)

/-- Collaborator typing of `reader.valueLabels`: hashable variable keys and
hashable value codes. -/
def wf_valueLabels (vls : PyDict (PyDict Val)) : Bool :=
  vls.all (fun p => pyHashable p.1 && p.2.all (fun q => pyHashable q.1))

/-- Collaborator typing of `reader.header`: hashable column names (they are
used as dict keys). -/
def wf_header (header : List Val) : Bool :=
  header.all pyHashable

/-- Data-model invariant of one retained record: one cell per column, every
cell hashable (numeric, text, bytes or None). -/
def wf_record (ncols : Nat) (r : List Val) : Bool :=
  r.length == ncols && r.all pyHashable

/-- Data-model invariant of the record list: every record after the discarded
first one is well-formed.  The first record is deliberately unconstrained. -/
def wf_records (ncols : Nat) (records : List (List Val)) : Bool :=
  (records.drop 1).all (wf_record ncols)

/-- All collaborator typing assumptions together. -/
def wf_input (d : SavData) : Bool :=
  wf_header d.header && wf_varLabels d.varLabels && wf_valueLabels d.valueLabels &&
    wf_records d.header.length d.records

/-- The per-cell substitution rule, written out as a plain function of the
built value-label dictionary: the mapped label text when a value-label table
exists for the variable and the raw cell value is one of its keys, the decoded
raw value otherwise.  `resolve_cell` is proved to compute this on every
well-typed cell. -/
def lookupResolve (value_labels_dict : PyDict (PyDict Val)) (var_name val : Val) : Val :=
  match dictFind value_labels_dict var_name with
  | some labels_for_var =>
      match dictFind labels_for_var val with
      | some lbl => lbl
      | none => decode_bytes val
  | none => decode_bytes val

/-- A native spreadsheet cell: the target format distinguishes numeric and
text cells; an absent value is an empty cell. -/
inductive ExcelCell where
  | num (q : ℚ)
  | text (s : String)
  | empty

/-- Whether a pipeline value has a native spreadsheet cell type (numeric,
text, or absent). -/
def nativeRepresentable : Val → Bool
  | .vint _ => true
  | .vfloat _ => true
  | .vstr _ => true
  | .vnone => true
  | _ => false

/-- Modelled from the spec: the spreadsheet library's binding of one dynamic
cell value to a native cell, inside the row-append call — this library code is
not part of the repository.  Per §4.2: numeric values become numeric cells,
text values text cells, an absent value an empty cell, and a value of any
other type is coerced to its text representation rather than aborting the
encode. -/
def bindCellValue : Val → ExcelCell
  | .vint n => .num (n : ℚ)
  | .vfloat q => .num q
  | .vstr s => .text s
  | .vnone => .empty
  | v => .text (pyStr v)

/-- Characters the target spreadsheet format forbids in a sheet name. -/
def isForbiddenSheetChar (c : Char) : Bool :=
  c = '\\' || c = '/' || c = '*' || c = '?' || c = ':' || c = '[' || c = ']'

/-- Modelled from the spec: the spreadsheet library's sanitization of the
sheet display name (library code, not part of the repository).  Per §4.2, a
name over the format's 31-character limit or holding forbidden characters is
sanitized and truncated — a recoverable truncation, not a failure. -/
def sanitizeSheetName (s : String) : String :=
  String.mk ((s.data.filter (fun c => !isForbiddenSheetChar c)).take 31)

/-- The single sheet of the produced workbook: display name plus the grid of
native cells, one list per written row.  Modelled from the spec: the workbook's
byte-level serialization is the library's and is abstracted to the sheet
content it stores. -/
structure Worksheet where
  title : String
  cells : List (List ExcelCell)

/-- Source `to_excel_bytes`: create a workbook with one active sheet, set its
title to `sheet_name`, append the header row, then append each resolved row in
order, and serialize.  The title set and the per-value conversion inside
append are the library's, modelled above. -/
def to_excel_bytes (headers : List Val) (rows : List (List Val))
    (sheet_name : String) : Worksheet :=
  Worksheet.mk (sanitizeSheetName sheet_name)
    (headers.map bindCellValue :: rows.map (fun r => r.map bindCellValue))

/-- Decoding does not change hashability: bytes become str, both hashable;
everything else is unchanged. -/
theorem pyHashable_decode_bytes (x : Val) : pyHashable (decode_bytes x) = pyHashable x := by
  cases x <;> rfl

/-- Decoding a str-or-bytes value yields a str. -/
theorem isStr_decode_bytes {v : Val} (h : strLike v = true) : isStr (decode_bytes v) = true := by
  cases v <;> simp_all [strLike, decode_bytes, isStr]

/-- Dict insertion preserves a predicate holding of every stored value. -/
theorem insertAux_all {α : Type} {P : α → Bool} {k : Val} {v : α} :
    ∀ {d : PyDict α}, d.all (fun p => P p.2) = true → P v = true →
      (insertAux d k v).all (fun p => P p.2) = true := by
  intro d
  induction d with
  | nil => intro _ hv; simp [insertAux, hv]
  | cons hd tl ih =>
      intro hall hv
      simp only [List.all_cons, Bool.and_eq_true] at hall
      by_cases hk : pyEq k hd.1 = true
      · simp [insertAux, hk, hall.1, hall.2, hv]
      · simp only [insertAux, hk]
        simp [List.all_cons, hall.1, ih hall.2 hv]

/-- A value found in a dict satisfies any predicate holding of every stored
value. -/
theorem dictFind_all {α : Type} {P : α → Bool} {key : Val} {v : α} :
    ∀ {d : PyDict α}, d.all (fun p => P p.2) = true → dictFind d key = some v →
      P v = true := by
  intro d
  induction d with
  | nil => intro _ h; simp [dictFind] at h
  | cons hd tl ih =>
      intro hall hfind
      simp only [List.all_cons, Bool.and_eq_true] at hall
      by_cases hk : pyEq key hd.1 = true
      · simp [dictFind, hk] at hfind
        exact hfind ▸ hall.1
      · simp [dictFind, hk] at hfind
        exact ih hall.2 hfind

/-- The lookup misses exactly when the key is Python-unequal to every stored
key. -/
theorem dictFind_eq_none_iff {α : Type} {key : Val} :
    ∀ {d : PyDict α}, dictFind d key = none ↔ ∀ p ∈ d, pyEq key p.1 = false := by
  intro d
  induction d with
  | nil => simp [dictFind]
  | cons hd tl ih =>
      by_cases hk : pyEq key hd.1 = true
      · simp [dictFind, hk]
      · simp [dictFind, hk, ih, Bool.eq_false_iff.mpr hk]

/-- A loop body that succeeds on every element makes the whole mapped loop
succeed. -/
theorem mapMOpt_some_of_forall {α β : Type} {f : α → Option β} :
    ∀ {l : List α}, (∀ a ∈ l, (f a).isSome = true) → ∃ ys, mapMOpt f l = some ys := by
  intro l
  induction l with
  | nil => intro _; exact ⟨[], rfl⟩
  | cons a t ih =>
      intro h
      obtain ⟨b, hb⟩ := Option.isSome_iff_exists.mp (h a (by simp))
      obtain ⟨ys, hys⟩ := ih (fun x hx => h x (by simp [hx]))
      exact ⟨b :: ys, by simp [mapMOpt, hb, hys]⟩

/-- A successful mapped loop yields one output per input. -/
theorem mapMOpt_length {α β : Type} {f : α → Option β} :
    ∀ {l : List α} {ys : List β}, mapMOpt f l = some ys → ys.length = l.length := by
  intro l
  induction l with
  | nil => intro ys h; simp [mapMOpt] at h; simp [h.symm]
  | cons a t ih =>
      intro ys h
      cases hfa : f a with
      | none => simp [mapMOpt, hfa] at h
      | some b =>
          cases hmt : mapMOpt f t with
          | none => simp [mapMOpt, hfa, hmt] at h
          | some bs =>
              simp [mapMOpt, hfa, hmt] at h
              simp [h.symm, ih hmt]

/-- Positional description of a successful mapped loop: output `i` is the
loop body applied to input `i`. -/
theorem mapMOpt_getElem {α β : Type} {f : α → Option β} :
    ∀ {l : List α} {ys : List β}, mapMOpt f l = some ys →
      ∀ i : Nat, ys[i]? = (l[i]?).bind f := by
  intro l
  induction l with
  | nil => intro ys h i; simp [mapMOpt] at h; subst h; simp
  | cons a t ih =>
      intro ys h i
      cases hfa : f a with
      | none => simp [mapMOpt, hfa] at h
      | some b =>
          cases hmt : mapMOpt f t with
          | none => simp [mapMOpt, hfa, hmt] at h
          | some bs =>
              simp only [mapMOpt, hfa, hmt] at h
              injection h with h2
              subst h2
              cases i with
              | zero => simp [hfa]
              | succ j => simp [ih hmt j]

/-- Positional description of `List.enumFrom`. -/
theorem enumFrom_getElem {α : Type} :
    ∀ (l : List α) (n i : Nat),
      (List.enumFrom n l)[i]? = (l[i]?).map (fun a => (n + i, a)) := by
  intro l
  induction l with
  | nil => intro n i; simp [List.enumFrom]
  | cons a t ih =>
      intro n i
      cases i with
      | zero => simp [List.enumFrom]
      | succ j =>
          have harith : n + 1 + j = n + (j + 1) := by omega
          simp only [List.enumFrom, List.getElem?_cons_succ, ih (n + 1) j, harith]

/-- Positional description of `List.enum` (Python `enumerate`). -/
theorem enum_getElem {α : Type} (l : List α) (i : Nat) :
    (l.enum)[i]? = (l[i]?).map (fun a => (i, a)) := by
  have h := enumFrom_getElem l 0 i
  simp only [Nat.zero_add] at h
  exact h

set_option maxHeartbeats 1000000 in
/-- The lossy decode never produces more characters than there were bytes. -/
theorem utf8DecodeIgnore_length (l : List Nat) :
    (utf8DecodeIgnore l).length ≤ l.length := by
  induction l using utf8DecodeIgnore.induct
  all_goals rw [utf8DecodeIgnore.eq_def]
  all_goals try simp_all
  all_goals try split_ifs
  all_goals try simp_all
  all_goals omega

/-- The variable-label dict build succeeds on collaborator-typed input and
stores only strings (decoded labels). -/
theorem build_var_labels_go :
    ∀ (vl : PyDict Val) (acc : PyDict Val),
      acc.all (fun p => isStr p.2) = true →
      vl.all (fun p => pyHashable p.1 && strLike p.2) = true →
      ∃ r, foldlOpt (fun d p => pyInsert d (decode_bytes p.1) (decode_bytes p.2)) acc vl
          = some r ∧ r.all (fun p => isStr p.2) = true := by
  intro vl
  induction vl with
  | nil => intro acc hacc _; exact ⟨acc, rfl, hacc⟩
  | cons hd tl ih =>
      intro acc hacc hwf
      simp only [List.all_cons, Bool.and_eq_true] at hwf
      have hkey : pyHashable (decode_bytes hd.1) = true := by
        rw [pyHashable_decode_bytes]; exact hwf.1.1
      have hstep : pyInsert acc (decode_bytes hd.1) (decode_bytes hd.2)
          = some (insertAux acc (decode_bytes hd.1) (decode_bytes hd.2)) := by
        simp [pyInsert, hkey]
      have hacc2 : (insertAux acc (decode_bytes hd.1) (decode_bytes hd.2)).all
          (fun p => isStr p.2) = true :=
        insertAux_all hacc (isStr_decode_bytes hwf.1.2)
      obtain ⟨r, hr, hrall⟩ := ih _ hacc2 hwf.2
      exact ⟨r, by simp [foldlOpt, hstep, hr], hrall⟩

/-- `build_var_labels_dict` on collaborator-typed input: succeeds and stores
only strings. -/
theorem build_var_labels_dict_spec {vl : PyDict Val} (hwf : wf_varLabels vl = true) :
    ∃ r, build_var_labels_dict vl = some r ∧ r.all (fun p => isStr p.2) = true :=
  build_var_labels_go vl [] rfl hwf

/-- Conversion of one variable's code-to-label dict succeeds when every code
is hashable. -/
theorem convert_value_labels_go :
    ∀ (vd : PyDict Val) (acc : PyDict Val),
      vd.all (fun q => pyHashable q.1) = true →
      ∃ r, foldlOpt (fun d p => pyInsert d p.1 (decode_bytes p.2)) acc vd = some r := by
  intro vd
  induction vd with
  | nil => intro acc _; exact ⟨acc, rfl⟩
  | cons hd tl ih =>
      intro acc hwf
      simp only [List.all_cons, Bool.and_eq_true] at hwf
      have hstep : pyInsert acc hd.1 (decode_bytes hd.2)
          = some (insertAux acc hd.1 (decode_bytes hd.2)) := by
        simp [pyInsert, hwf.1]
      obtain ⟨r, hr⟩ := ih (insertAux acc hd.1 (decode_bytes hd.2)) hwf.2
      exact ⟨r, by simp [foldlOpt, hstep, hr]⟩

/-- `build_value_labels_dict` succeeds on collaborator-typed input. -/
theorem build_value_labels_dict_spec :
    ∀ {vls : PyDict (PyDict Val)}, wf_valueLabels vls = true →
      ∃ r, build_value_labels_dict vls = some r := by
  have go : ∀ (vls : PyDict (PyDict Val)) (acc : PyDict (PyDict Val)),
      vls.all (fun p => pyHashable p.1 && p.2.all (fun q => pyHashable q.1)) = true →
      ∃ r, foldlOpt
          (fun d p =>
            match convert_value_labels p.2 with
            | some converted => pyInsert d (decode_bytes p.1) converted
            | none => none)
          acc vls = some r := by
    intro vls
    induction vls with
    | nil => intro acc _; exact ⟨acc, rfl⟩
    | cons hd tl ih =>
        intro acc hwf
        simp only [List.all_cons, Bool.and_eq_true] at hwf
        obtain ⟨conv, hconv⟩ := convert_value_labels_go hd.2 [] hwf.1.2
        have hkey : pyHashable (decode_bytes hd.1) = true := by
          rw [pyHashable_decode_bytes]; exact hwf.1.1
        obtain ⟨r, hr⟩ := ih (insertAux acc (decode_bytes hd.1) conv) hwf.2
        refine ⟨r, ?_⟩
        have hc : convert_value_labels hd.2 = some conv := hconv
        have hp : pyInsert acc (decode_bytes hd.1) conv
            = some (insertAux acc (decode_bytes hd.1) conv) := by
          simp [pyInsert, hkey]
        simp only [foldlOpt, hc, hp]
        exact hr
  intro vls hwf
  exact go vls [] hwf

/-- One final-header entry, on a hashable column name and a string-valued
variable-label dict: the trimmed label decides between the
`"name (label)"` form and the bare name. -/
theorem make_final_header_eq {vl : PyDict Val} {var_name : Val}
    (hname : pyHashable var_name = true) (hvl : vl.all (fun p => isStr p.2) = true) :
    ∃ lbl : String,
      strip_label ((dictFind vl var_name).getD (Val.vstr "")) = some lbl ∧
      make_final_header vl var_name =
        some (if lbl.isEmpty then var_name
              else .vstr (pyStr var_name ++ " (" ++ lbl ++ ")")) := by
  unfold make_final_header
  simp only [pyGet, hname, if_true]
  cases hfind : dictFind vl var_name with
  | none => exact ⟨pyStrip "", by simp [strip_label], by simp [strip_label]⟩
  | some stored =>
      have hstr := dictFind_all hvl hfind
      cases stored with
      | vstr s => exact ⟨pyStrip s, by simp [strip_label], by simp [strip_label]⟩
      | vint n => simp [isStr] at hstr
      | vfloat q => simp [isStr] at hstr
      | vbytes b => simp [isStr] at hstr
      | vnone => simp [isStr] at hstr
      | vlist l => simp [isStr] at hstr

/-- One cell, on a hashable column name and a hashable cell value: the
resolver returns exactly the substitution rule `lookupResolve`, with no
exception. -/
theorem resolve_cell_eq {hd : List Val} {vld : PyDict (PyDict Val)} {j : Nat}
    {val var_name : Val} (hj : hd[j]? = some var_name)
    (hname : pyHashable var_name = true) (hval : pyHashable val = true) :
    resolve_cell hd vld j val = some (lookupResolve vld var_name val) := by
  unfold resolve_cell lookupResolve
  rw [hj]
  simp only [pyGet, hname, if_true]
  cases hf : dictFind vld var_name with
  | none => rfl
  | some lfv =>
      simp only [pyGet, hval, if_true]
      cases hg : dictFind lfv val <;> rfl

/-- One record whose cells are hashable and that is no longer than the
header: resolution succeeds, keeps the length, and treats column `j` by the
cell rule at column `j`. -/
theorem resolve_record_spec {hd : List Val} {vld : PyDict (PyDict Val)}
    {record : List Val} (hlen : record.length ≤ hd.length)
    (hhd : hd.all pyHashable = true) (hrec : record.all pyHashable = true) :
    ∃ row, resolve_record hd vld record = some row ∧ row.length = record.length ∧
      ∀ j : Nat, row[j]? = (record[j]?).bind (resolve_cell hd vld j) := by
  have hsome : ∀ p ∈ record.enum,
      ((fun p : Nat × Val => resolve_cell hd vld p.1 p.2) p).isSome = true := by
    intro p hp
    obtain ⟨i, hip⟩ := List.mem_iff_getElem?.mp hp
    rw [enum_getElem] at hip
    cases hv : record[i]? with
    | none => rw [hv] at hip; simp at hip
    | some v =>
        rw [hv] at hip
        simp only [Option.map_some'] at hip
        injection hip with hip
        obtain ⟨hi, _⟩ := List.getElem?_eq_some.mp hv
        have hihd : i < hd.length := lt_of_lt_of_le hi hlen
        have hw : hd[i]? = some (hd.get ⟨i, hihd⟩) := by
          simp [List.getElem?_eq_getElem hihd]
        have hwh : pyHashable (hd.get ⟨i, hihd⟩) = true :=
          (List.all_eq_true.mp hhd) _ (List.get_mem hd i hihd)
        have hvh : pyHashable v = true :=
          (List.all_eq_true.mp hrec) _ (List.getElem?_mem hv)
        rw [← hip]
        simp [resolve_cell_eq hw hwh hvh]
  obtain ⟨row, hrow⟩ := mapMOpt_some_of_forall hsome
  refine ⟨row, hrow, ?_, ?_⟩
  · rw [mapMOpt_length hrow, List.enum_length]
  · intro j
    rw [mapMOpt_getElem hrow j, enum_getElem]
    cases record[j]? <;> rfl

/-- The row loop on a header of hashable names and well-formed records after
the first: it succeeds, produces one row per record except the first, row `k`
being the resolution of record `k + 1`, and every produced row is as long as
the header. -/
theorem build_rows_spec {hd : List Val} {vld : PyDict (PyDict Val)}
    {records : List (List Val)} (hhd : hd.all pyHashable = true)
    (hwf : wf_records hd.length records = true) :
    ∃ rows, build_rows hd vld records = some rows ∧
      rows.length = records.length - 1 ∧
      (∀ k : Nat, rows[k]? = (records[k + 1]?).bind (resolve_record hd vld)) ∧
      (∀ (k : Nat) (row : List Val), rows[k]? = some row → row.length = hd.length) := by
  unfold wf_records at hwf
  have hwf2 : ∀ r ∈ records.drop 1,
      r.length = hd.length ∧ r.all pyHashable = true := by
    intro r hr
    have h := (List.all_eq_true.mp hwf) r hr
    unfold wf_record at h
    simp only [Bool.and_eq_true, beq_iff_eq] at h
    exact h
  have hsome : ∀ r ∈ records.drop 1, (resolve_record hd vld r).isSome = true := by
    intro r hr
    obtain ⟨hl, hh⟩ := hwf2 r hr
    obtain ⟨row, hrow, _, _⟩ := resolve_record_spec (le_of_eq hl) hhd hh
    rw [hrow]
    rfl
  obtain ⟨rows, hrows⟩ := mapMOpt_some_of_forall hsome
  have hpt : ∀ k : Nat, rows[k]? = (records[k + 1]?).bind (resolve_record hd vld) := by
    intro k
    rw [mapMOpt_getElem hrows k, List.getElem?_drop]
    rw [Nat.add_comm 1 k]
  refine ⟨rows, hrows, ?_, hpt, ?_⟩
  · rw [mapMOpt_length hrows, List.length_drop]
  · intro k row hrowk
    have h := hpt k
    rw [hrowk] at h
    cases hrk : records[k + 1]? with
    | none => rw [hrk] at h; simp at h
    | some r =>
        rw [hrk] at h
        simp only [Option.some_bind] at h
        have hrmem : r ∈ records.drop 1 := by
          have hget : (records.drop 1)[k]? = some r := by
            rw [List.getElem?_drop, Nat.add_comm 1 k]
            exact hrk
          exact List.getElem?_mem hget
        obtain ⟨hl, hh⟩ := hwf2 r hrmem
        obtain ⟨row2, hrow2, hlen2, _⟩ := resolve_record_spec (le_of_eq hl) hhd hh
        rw [hrow2] at h
        injection h with h
        rw [h, hlen2, hl]

/-- Decoding the header keeps the column count. -/
theorem build_headers_dict_length (header : List Val) :
    (build_headers_dict header).length = header.length := by
  simp [build_headers_dict]

/-- The final-header build on collaborator-typed input: it succeeds, yields
one header per column, and entry `i` is built from decoded column name `i`. -/
theorem build_final_headers_spec {header : List Val} {vl : PyDict Val}
    (hhd : wf_header header = true) (hvl : vl.all (fun p => isStr p.2) = true) :
    ∃ fh, build_final_headers (build_headers_dict header) vl = some fh ∧
      fh.length = header.length ∧
      ∀ i : Nat,
        fh[i]? = ((build_headers_dict header)[i]?).bind (make_final_header vl) := by
  have hsome : ∀ name ∈ build_headers_dict header,
      (make_final_header vl name).isSome = true := by
    intro name hn
    obtain ⟨h0, hh0, rfl⟩ := List.mem_map.mp hn
    have hhash : pyHashable (decode_bytes h0) = true := by
      rw [pyHashable_decode_bytes]
      exact (List.all_eq_true.mp hhd) h0 hh0
    obtain ⟨lbl, _, heq⟩ := make_final_header_eq hhash hvl
    rw [heq]
    rfl
  obtain ⟨fh, hfh⟩ := mapMOpt_some_of_forall hsome
  refine ⟨fh, hfh, ?_, fun i => mapMOpt_getElem hfh i⟩
  rw [mapMOpt_length hfh, build_headers_dict_length]

/-- End-to-end description of `process_sav` on collaborator-typed input: all
build phases succeed, the result is assembled from them, the resolved header
has one entry per column, exactly `N - 1` rows come out, row `k` is the
resolution of raw record `k + 1`, and every row is as long as the header. -/
theorem process_sav_spec {d : SavData} (hwf : wf_input d = true) :
    ∃ vl vld fh rows,
      build_var_labels_dict d.varLabels = some vl ∧
      vl.all (fun p => isStr p.2) = true ∧
      build_value_labels_dict d.valueLabels = some vld ∧
      build_final_headers (build_headers_dict d.header) vl = some fh ∧
      build_rows (build_headers_dict d.header) vld d.records = some rows ∧
      process_sav d = some (rows, fh, vld) ∧
      fh.length = d.header.length ∧
      (∀ i : Nat,
        fh[i]? = ((build_headers_dict d.header)[i]?).bind (make_final_header vl)) ∧
      rows.length = d.records.length - 1 ∧
      (∀ k : Nat, rows[k]? = (d.records[k + 1]?).bind
          (resolve_record (build_headers_dict d.header) vld)) ∧
      (∀ (k : Nat) (row : List Val),
        rows[k]? = some row → row.length = d.header.length) := by
  unfold wf_input at hwf
  simp only [Bool.and_eq_true] at hwf
  obtain ⟨⟨⟨hhd, hvl⟩, hvls⟩, hrecs⟩ := hwf
  obtain ⟨vl, hvl1, hvl2⟩ := build_var_labels_dict_spec hvl
  obtain ⟨vld, hvld⟩ := build_value_labels_dict_spec hvls
  have hhd2 : (build_headers_dict d.header).all pyHashable = true := by
    rw [List.all_eq_true]
    intro x hx
    obtain ⟨h0, hh0, rfl⟩ := List.mem_map.mp hx
    rw [pyHashable_decode_bytes]
    exact (List.all_eq_true.mp hhd) h0 hh0
  obtain ⟨fh, hfh, hfhlen, hfhpt⟩ := build_final_headers_spec hhd hvl2
  have hwfr : wf_records (build_headers_dict d.header).length d.records = true := by
    rw [build_headers_dict_length]
    exact hrecs
  obtain ⟨rows, hrows, hrlen, hrpt, hrowlen⟩ := build_rows_spec hhd2 hwfr
  refine ⟨vl, vld, fh, rows, hvl1, hvl2, hvld, hfh, hrows, ?_, hfhlen, hfhpt, hrlen,
    hrpt, ?_⟩
  · simp only [process_sav, hvl1, hvld, hfh, hrows]
  · intro k row h
    have hl := hrowlen k row h
    rw [hl, build_headers_dict_length]

/-- Shared cell-level description: on collaborator-typed input, output cell
`(k, j)` of a successful `process_sav` run is the substitution rule applied to
cell `j` of raw record `k + 1`. -/
theorem process_sav_cell {d : SavData} {rows : List (List Val)} {fh : List Val}
    {vld : PyDict (PyDict Val)} {k j : Nat} {record : List Val} {val var_name : Val}
    (hwf : wf_input d = true) (hps : process_sav d = some (rows, fh, vld))
    (hrec : d.records[k + 1]? = some record) (hval : record[j]? = some val)
    (hname : (build_headers_dict d.header)[j]? = some var_name) :
    (rows[k]?).bind (fun row => row[j]?) = some (lookupResolve vld var_name val) := by
  obtain ⟨vl, vld2, fh2, rows2, hvl1, hvl2, hvld, hfh, hrows, hps2, hfhlen, hfhpt,
    hrlen, hrpt, hrowlen⟩ := process_sav_spec hwf
  rw [hps] at hps2
  injection hps2 with h
  simp only [Prod.mk.injEq] at h
  obtain ⟨h1, h2, h3⟩ := h
  subst h1; subst h3
  have hwfd := hwf
  unfold wf_input at hwfd
  simp only [Bool.and_eq_true] at hwfd
  obtain ⟨⟨⟨hhd, _⟩, _⟩, hrecs⟩ := hwfd
  have hhd2 : (build_headers_dict d.header).all pyHashable = true := by
    rw [List.all_eq_true]
    intro x hx
    obtain ⟨h0, hh0, rfl⟩ := List.mem_map.mp hx
    rw [pyHashable_decode_bytes]
    exact (List.all_eq_true.mp hhd) h0 hh0
  have hrmem : record ∈ d.records.drop 1 := by
    have hget : (d.records.drop 1)[k]? = some record := by
      rw [List.getElem?_drop, Nat.add_comm 1 k]
      exact hrec
    exact List.getElem?_mem hget
  have hwfr := (List.all_eq_true.mp hrecs) record hrmem
  unfold wf_record at hwfr
  simp only [Bool.and_eq_true, beq_iff_eq] at hwfr
  obtain ⟨hrl, hrh⟩ := hwfr
  have hrl2 : record.length ≤ (build_headers_dict d.header).length := by
    rw [build_headers_dict_length]
    exact le_of_eq hrl
  obtain ⟨row, hrow, _, hrowpt⟩ := resolve_record_spec hrl2 hhd2 hrh
  have hrk : rows[k]? = some row := by
    rw [hrpt k, hrec]
    simp only [Option.some_bind]
    exact hrow
  rw [hrk]
  simp only [Option.some_bind]
  rw [hrowpt j, hval]
  simp only [Option.some_bind]
  have hnameh : pyHashable var_name = true :=
    (List.all_eq_true.mp hhd2) var_name (List.getElem?_mem hname)
  have hvalh : pyHashable val = true :=
    (List.all_eq_true.mp hrh) val (List.getElem?_mem hval)
  exact resolve_cell_eq hname hnameh hvalh

/-- Claim C1: on collaborator-typed input with at least one raw record, the
resolver succeeds and discards the first record unconditionally, whatever its
content: N records in, N - 1 rows out, output row k being the resolution of
raw record k + 1. -/
theorem process_sav_discards_first (d : SavData) (hwf : wf_input d = true)
    (_hN : 1 ≤ d.records.length) :
    (process_sav d).isSome = true ∧
    ∀ (rows : List (List Val)) (fh : List Val) (vld : PyDict (PyDict Val)),
      process_sav d = some (rows, fh, vld) →
      rows.length = d.records.length - 1 ∧
      ∀ k : Nat, rows[k]? =
        (d.records[k + 1]?).bind (resolve_record (build_headers_dict d.header) vld) := by
  obtain ⟨vl, vld2, fh2, rows2, _, _, _, _, _, hps2, _, _, hrlen, hrpt, _⟩ :=
    process_sav_spec hwf
  constructor
  · rw [hps2]; rfl
  · intro rows fh vld hps
    rw [hps] at hps2
    injection hps2 with h
    simp only [Prod.mk.injEq] at h
    obtain ⟨h1, h2, h3⟩ := h
    subst h1; subst h3
    exact ⟨hrlen, hrpt⟩

/-- Witness for C1: a two-record input whose first record is arbitrary
garbage (it even holds an unhashable list) still resolves, to exactly one row,
the resolution of record index 1. -/
theorem process_sav_discards_first_witness :
    (process_sav (SavData.mk [Val.vstr "A"] [] []
        [[Val.vlist [Val.vint 9]], [Val.vint 2]])).isSome = true ∧
    ([[Val.vint 2]] : List (List Val)).length =
      ([[Val.vlist [Val.vint 9]], [Val.vint 2]] : List (List Val)).length - 1 := by
  have h := process_sav_discards_first
    (SavData.mk [Val.vstr "A"] [] [] [[Val.vlist [Val.vint 9]], [Val.vint 2]])
    (by rfl) (by decide)
  exact ⟨h.1, (h.2 [[Val.vint 2]] [Val.vstr "A"] [] (by rfl)).1⟩

/-- Claim C10: fewer than two records (none, or only the discarded first one)
yield an empty row list together with the complete resolved header, without
raising. -/
theorem process_sav_short_input (d : SavData)
    (hh : wf_header d.header = true) (hvl : wf_varLabels d.varLabels = true)
    (hvls : wf_valueLabels d.valueLabels = true) (hN : d.records.length ≤ 1) :
    (process_sav d).isSome = true ∧
    ∀ (rows : List (List Val)) (fh : List Val) (vld : PyDict (PyDict Val)),
      process_sav d = some (rows, fh, vld) →
      rows = [] ∧ fh.length = d.header.length := by
  have hwf : wf_input d = true := by
    unfold wf_input wf_records
    rw [List.drop_eq_nil_iff.mpr hN]
    simp [hh, hvl, hvls]
  obtain ⟨vl, vld2, fh2, rows2, _, _, _, _, _, hps2, hfhlen, _, hrlen, _, _⟩ :=
    process_sav_spec hwf
  constructor
  · rw [hps2]; rfl
  · intro rows fh vld hps
    rw [hps] at hps2
    injection hps2 with h
    simp only [Prod.mk.injEq] at h
    obtain ⟨h1, h2, h3⟩ := h
    subst h1; subst h2
    refine ⟨?_, hfhlen⟩
    have hz : rows.length = 0 := by rw [hrlen]; omega
    exact List.length_eq_zero.mp hz

/-- Witness for C10: a single (garbage) record gives the empty row list and
the full header. -/
theorem process_sav_short_input_witness :
    (process_sav (SavData.mk [Val.vstr "A"] [] [] [[Val.vlist []]])).isSome = true ∧
    process_sav (SavData.mk [Val.vstr "A"] [] [] [[Val.vlist []]]) =
      some ([], [Val.vstr "A"], []) := by
  refine ⟨?_, rfl⟩
  exact (process_sav_short_input (SavData.mk [Val.vstr "A"] [] [] [[Val.vlist []]])
    rfl rfl rfl (by decide)).1

/-- Claim C2: for every retained record and every column of collaborator-typed
input, the emitted cell is the mapped label text when a value-label table
exists for the column's variable and the raw value is one of its keys, and the
decoded raw value (numbers unchanged, byte strings UTF-8-decoded) otherwise —
`lookupResolve` is exactly that case split over the returned
`value_labels_dict`. -/
theorem process_sav_cell_rule (d : SavData) (rows : List (List Val)) (fh : List Val)
    (vld : PyDict (PyDict Val)) (k j : Nat) (record : List Val) (val var_name : Val)
    (hwf : wf_input d = true) (hps : process_sav d = some (rows, fh, vld))
    (hrec : d.records[k + 1]? = some record) (hval : record[j]? = some val)
    (hname : (build_headers_dict d.header)[j]? = some var_name) :
    (rows[k]?).bind (fun row => row[j]?) = some (lookupResolve vld var_name val) :=
  process_sav_cell hwf hps hrec hval hname

/-- Witness for C2, on the spec's own example: variable SEX with table
1 ↦ "Male", 2 ↦ "Female"; raw 1 resolves to "Male", unmapped raw 3 passes
through unchanged. -/
theorem process_sav_cell_rule_witness :
    (([[Val.vstr "Male"], [Val.vint 3]] : List (List Val))[0]?).bind
        (fun row => row[0]?) =
      some (lookupResolve
        [(Val.vstr "SEX", [(Val.vint 1, Val.vstr "Male"), (Val.vint 2, Val.vstr "Female")])]
        (Val.vstr "SEX") (Val.vint 1)) ∧
    (([[Val.vstr "Male"], [Val.vint 3]] : List (List Val))[1]?).bind
        (fun row => row[0]?) =
      some (lookupResolve
        [(Val.vstr "SEX", [(Val.vint 1, Val.vstr "Male"), (Val.vint 2, Val.vstr "Female")])]
        (Val.vstr "SEX") (Val.vint 3)) ∧
    lookupResolve
        [(Val.vstr "SEX", [(Val.vint 1, Val.vstr "Male"), (Val.vint 2, Val.vstr "Female")])]
        (Val.vstr "SEX") (Val.vint 1) = Val.vstr "Male" ∧
    lookupResolve
        [(Val.vstr "SEX", [(Val.vint 1, Val.vstr "Male"), (Val.vint 2, Val.vstr "Female")])]
        (Val.vstr "SEX") (Val.vint 3) = Val.vint 3 := by
  refine ⟨?_, ?_, rfl, rfl⟩
  · exact process_sav_cell_rule
      (SavData.mk [Val.vstr "SEX"] []
        [(Val.vstr "SEX", [(Val.vint 1, Val.vstr "Male"), (Val.vint 2, Val.vstr "Female")])]
        [[Val.vnone], [Val.vint 1], [Val.vint 3]])
      [[Val.vstr "Male"], [Val.vint 3]] [Val.vstr "SEX"]
      [(Val.vstr "SEX", [(Val.vint 1, Val.vstr "Male"), (Val.vint 2, Val.vstr "Female")])]
      0 0 [Val.vint 1] (Val.vint 1) (Val.vstr "SEX") rfl rfl rfl rfl rfl
  · exact process_sav_cell_rule
      (SavData.mk [Val.vstr "SEX"] []
        [(Val.vstr "SEX", [(Val.vint 1, Val.vstr "Male"), (Val.vint 2, Val.vstr "Female")])]
        [[Val.vnone], [Val.vint 1], [Val.vint 3]])
      [[Val.vstr "Male"], [Val.vint 3]] [Val.vstr "SEX"]
      [(Val.vstr "SEX", [(Val.vint 1, Val.vstr "Male"), (Val.vint 2, Val.vstr "Female")])]
      1 0 [Val.vint 3] (Val.vint 3) (Val.vstr "SEX") rfl rfl rfl rfl rfl

/-- Claim C5: text normalization is total.  Every byte sequence decodes to a
text string (the lossy UTF-8 decode; at most one character per byte, never an
absent result) and every non-bytes value passes through unchanged. -/
theorem decode_bytes_total :
    (∀ b : List Nat,
      decode_bytes (.vbytes b) = .vstr (utf8DecodeIgnoreStr b) ∧
      (utf8DecodeIgnoreStr b).length ≤ b.length ∧
      decode_bytes (.vbytes b) ≠ .vnone) ∧
    (∀ v : Val, typeOf v ≠ PyType.bytes → decode_bytes v = v) := by
  constructor
  · intro b
    refine ⟨rfl, ?_, by simp [decode_bytes]⟩
    have h := utf8DecodeIgnore_length b
    simpa [utf8DecodeIgnoreStr, String.length] using h
  · intro v hv
    cases v <;> simp_all [decode_bytes, typeOf]

/-- Witness for C5: bytes with an invalid 0xFF byte decode (losing just that
byte) instead of raising; an int passes through. -/
theorem decode_bytes_total_witness :
    decode_bytes (.vbytes [65, 255, 66]) = .vstr "AB" ∧
    decode_bytes (.vint 7) = .vint 7 := by
  constructor
  · rw [(decode_bytes_total.1 [65, 255, 66]).1]
    simp [utf8DecodeIgnoreStr, utf8DecodeIgnore, isCont]
  · exact decode_bytes_total.2 (.vint 7) (by decide)

/-- Counterexample to claim C4 as stated: a stored float code 1.0 against an
integer key 1 — the raw value differs in Python type from every key of the
table, yet the lookup succeeds (Python `==` equates numerically equal numbers
across numeric types) and the resolver emits the mapped label "Male", not the
raw value. -/
theorem lookup_type_mismatch_counterexample :
    typeOf (Val.vfloat 1) ≠ typeOf (Val.vint 1) ∧
    process_sav (SavData.mk [Val.vstr "SEX"] []
        [(Val.vstr "SEX", [(Val.vint 1, Val.vstr "Male")])]
        [[Val.vnone], [Val.vfloat 1]]) =
      some ([[Val.vstr "Male"]], [Val.vstr "SEX"],
        [(Val.vstr "SEX", [(Val.vint 1, Val.vstr "Male")])]) ∧
    Val.vstr "Male" ≠ decode_bytes (Val.vfloat 1) := by
  refine ⟨by decide, rfl, ?_⟩
  intro h
  exact Val.noConfusion h

/-- Claim C4 as amended: the lookup uses Python equality on the raw, undecoded
stored code.  For every cell whose raw value is Python-unequal to every key of
its variable's value-label table (e.g. a stored string code versus an integer
key), the lookup fails silently and the resolver emits the raw value via the
fallback path, with no error raised; numerically equal codes of different
numeric types, however, do match. -/
theorem lookup_miss_fallback (d : SavData) (rows : List (List Val)) (fh : List Val)
    (vld : PyDict (PyDict Val)) (k j : Nat) (record : List Val) (val var_name : Val)
    (hwf : wf_input d = true) (hps : process_sav d = some (rows, fh, vld))
    (hrec : d.records[k + 1]? = some record) (hval : record[j]? = some val)
    (hname : (build_headers_dict d.header)[j]? = some var_name)
    (hmiss : ∀ lfv, dictFind vld var_name = some lfv →
      ∀ p ∈ lfv, pyEq val p.1 = false) :
    (rows[k]?).bind (fun row => row[j]?) = some (decode_bytes val) := by
  rw [process_sav_cell hwf hps hrec hval hname]
  unfold lookupResolve
  cases hf : dictFind vld var_name with
  | none => rfl
  | some lfv =>
      have hnone : dictFind lfv val = none := dictFind_eq_none_iff.mpr (hmiss lfv hf)
      simp [hnone]

/-- Witness for the amended C4: a stored string code "1" misses the integer
key 1 and the raw value falls through undecoded and unharmed. -/
theorem lookup_miss_fallback_witness :
    (([[Val.vstr "1"]] : List (List Val))[0]?).bind (fun row => row[0]?) =
      some (decode_bytes (Val.vstr "1")) ∧
    decode_bytes (Val.vstr "1") = Val.vstr "1" := by
  refine ⟨?_, rfl⟩
  refine lookup_miss_fallback
    (SavData.mk [Val.vstr "SEX"] []
      [(Val.vstr "SEX", [(Val.vint 1, Val.vstr "Male")])]
      [[Val.vnone], [Val.vstr "1"]])
    [[Val.vstr "1"]] [Val.vstr "SEX"]
    [(Val.vstr "SEX", [(Val.vint 1, Val.vstr "Male")])]
    0 0 [Val.vstr "1"] (Val.vstr "1") (Val.vstr "SEX") rfl rfl rfl rfl rfl ?_
  intro lfv hf p hp
  have hl : some [(Val.vint 1, Val.vstr "Male")] = some lfv := hf
  injection hl with h2
  subst h2
  simp only [List.mem_singleton] at hp
  subst hp
  rfl

/-- Claim C3: resolved header `i` is `"name (label)"` when the variable's
label is non-empty after trimming, and the bare `name` otherwise (`lbl` being
the trimmed label the source computes from the decoded variable-label dict,
with "" for a missing entry). -/
theorem header_format_rule (d : SavData) (rows : List (List Val)) (fh : List Val)
    (vld : PyDict (PyDict Val)) (vl : PyDict Val) (i : Nat) (h0 : Val)
    (name lbl : String)
    (hwf : wf_input d = true) (hps : process_sav d = some (rows, fh, vld))
    (hvl1 : build_var_labels_dict d.varLabels = some vl)
    (hh0 : d.header[i]? = some h0)
    (hname : decode_bytes h0 = .vstr name)
    (hlbl : strip_label ((dictFind vl (.vstr name)).getD (.vstr "")) = some lbl) :
    fh[i]? = some (if lbl.isEmpty then Val.vstr name
                   else .vstr (name ++ " (" ++ lbl ++ ")")) := by
  obtain ⟨vl2, vld2, fh2, rows2, hvl1b, hvl2, hvld, hfh, hrows, hps2, hfhlen, hfhpt,
    hrlen, hrpt, hrowlen⟩ := process_sav_spec hwf
  rw [hps] at hps2
  injection hps2 with h
  simp only [Prod.mk.injEq] at h
  obtain ⟨h1, h2, h3⟩ := h
  subst h2
  rw [hvl1] at hvl1b
  injection hvl1b with h4
  subst h4
  rw [hfhpt i]
  have hhd : (build_headers_dict d.header)[i]? = some (Val.vstr name) := by
    unfold build_headers_dict
    rw [List.getElem?_map, hh0]
    simp [hname]
  rw [hhd]
  simp only [Option.some_bind]
  obtain ⟨lbl2, hlbl2, heq⟩ :=
    make_final_header_eq (show pyHashable (Val.vstr name) = true from rfl) hvl2
  rw [hlbl2] at hlbl
  injection hlbl with h5
  subst h5
  rw [heq]
  rfl

/-- Witness for C3, on the spec's own examples: AGE with label
" Respondent age " (trimmed, non-empty) and ID with no label entry. -/
theorem header_format_rule_witness :
    ([Val.vstr "AGE (Respondent age)", Val.vstr "ID"] : List Val)[0]? =
      some (if ("Respondent age" : String).isEmpty then Val.vstr "AGE"
            else Val.vstr ("AGE" ++ " (" ++ "Respondent age" ++ ")")) ∧
    ([Val.vstr "AGE (Respondent age)", Val.vstr "ID"] : List Val)[1]? =
      some (if ("" : String).isEmpty then Val.vstr "ID"
            else Val.vstr ("ID" ++ " (" ++ "" ++ ")")) := by
  constructor
  · exact header_format_rule
      (SavData.mk [Val.vstr "AGE", Val.vstr "ID"]
        [(Val.vstr "AGE", Val.vstr " Respondent age ")] [] [])
      [] [Val.vstr "AGE (Respondent age)", Val.vstr "ID"] []
      [(Val.vstr "AGE", Val.vstr " Respondent age ")]
      0 (Val.vstr "AGE") "AGE" "Respondent age" rfl rfl rfl rfl rfl rfl
  · exact header_format_rule
      (SavData.mk [Val.vstr "AGE", Val.vstr "ID"]
        [(Val.vstr "AGE", Val.vstr " Respondent age ")] [] [])
      [] [Val.vstr "AGE (Respondent age)", Val.vstr "ID"] []
      [(Val.vstr "AGE", Val.vstr " Respondent age ")]
      1 (Val.vstr "ID") "ID" "" rfl rfl rfl rfl rfl rfl

/-- Claim C6: column structure is preserved.  On collaborator-typed input the
resolved header and every resolved row are exactly as long as the raw header,
and output cell `(k, j)` is derived from cell `j` of raw record `k + 1` by the
per-cell resolution at column `j` — no column added, removed or reordered. -/
theorem column_structure_preserved (d : SavData) (rows : List (List Val))
    (fh : List Val) (vld : PyDict (PyDict Val))
    (hwf : wf_input d = true) (hps : process_sav d = some (rows, fh, vld)) :
    fh.length = d.header.length ∧
    (∀ (k : Nat) (row : List Val), rows[k]? = some row →
      row.length = d.header.length) ∧
    (∀ k j : Nat, (rows[k]?).bind (fun row => row[j]?) =
      ((d.records[k + 1]?).bind (fun r => r[j]?)).bind
        (resolve_cell (build_headers_dict d.header) vld j)) := by
  obtain ⟨vl, vld2, fh2, rows2, hvl1, hvl2, hvld, hfh, hrows, hps2, hfhlen, hfhpt,
    hrlen, hrpt, hrowlen⟩ := process_sav_spec hwf
  rw [hps] at hps2
  injection hps2 with h
  simp only [Prod.mk.injEq] at h
  obtain ⟨h1, h2, h3⟩ := h
  subst h1; subst h2; subst h3
  have hwfd := hwf
  unfold wf_input at hwfd
  simp only [Bool.and_eq_true] at hwfd
  obtain ⟨⟨⟨hhd, _⟩, _⟩, hrecs⟩ := hwfd
  have hhd2 : (build_headers_dict d.header).all pyHashable = true := by
    rw [List.all_eq_true]
    intro x hx
    obtain ⟨h0, hh0, rfl⟩ := List.mem_map.mp hx
    rw [pyHashable_decode_bytes]
    exact (List.all_eq_true.mp hhd) h0 hh0
  refine ⟨hfhlen, hrowlen, ?_⟩
  intro k j
  rw [hrpt k]
  cases hrk : d.records[k + 1]? with
  | none => simp
  | some r =>
      simp only [Option.some_bind]
      have hrmem : r ∈ d.records.drop 1 := by
        have hget : (d.records.drop 1)[k]? = some r := by
          rw [List.getElem?_drop, Nat.add_comm 1 k]
          exact hrk
        exact List.getElem?_mem hget
      have hwfr := (List.all_eq_true.mp hrecs) r hrmem
      unfold wf_record at hwfr
      simp only [Bool.and_eq_true, beq_iff_eq] at hwfr
      obtain ⟨hrl, hrh⟩ := hwfr
      have hrl2 : r.length ≤ (build_headers_dict d.header).length := by
        rw [build_headers_dict_length]
        exact le_of_eq hrl
      obtain ⟨row, hrow, _, hrowpt⟩ := resolve_record_spec hrl2 hhd2 hrh
      rw [hrow]
      simp only [Option.some_bind]
      exact hrowpt j

/-- Witness for C6: a two-column input; the surviving row keeps both columns,
and its second cell is column 1's resolution of the raw record's second
cell. -/
theorem column_structure_preserved_witness :
    ([Val.vint 1, Val.vstr "x"] : List Val).length =
      ([Val.vstr "A", Val.vstr "B"] : List Val).length ∧
    (([[Val.vint 1, Val.vstr "x"]] : List (List Val))[0]?).bind
        (fun row => row[1]?) =
      ((([[Val.vnone, Val.vnone], [Val.vint 1, Val.vstr "x"]] :
            List (List Val))[0 + 1]?).bind (fun r => r[1]?)).bind
        (resolve_cell (build_headers_dict [Val.vstr "A", Val.vstr "B"]) [] 1) := by
  have h := column_structure_preserved
    (SavData.mk [Val.vstr "A", Val.vstr "B"] [] []
      [[Val.vnone, Val.vnone], [Val.vint 1, Val.vstr "x"]])
    [[Val.vint 1, Val.vstr "x"]] [Val.vstr "A", Val.vstr "B"] [] rfl rfl
  exact ⟨h.2.1 0 [Val.vint 1, Val.vstr "x"] rfl, h.2.2 0 1⟩

/-- Shared positional description of the encoded sheet: written row `k + 1`,
column `j` is the native binding of resolver row `k`, column `j`. -/
theorem to_excel_cell_eq (headers : List Val) (rows : List (List Val))
    (sheet_name : String) (k j : Nat) :
    ((to_excel_bytes headers rows sheet_name).cells[k + 1]?).bind (fun r => r[j]?) =
      ((rows[k]?).bind (fun r => r[j]?)).map bindCellValue := by
  simp only [to_excel_bytes, List.getElem?_cons_succ, List.getElem?_map]
  cases rows[k]? with
  | none => rfl
  | some r =>
      simp only [Option.map_some', Option.some_bind, List.getElem?_map]

/-- Claim C7: the encoder writes the header sequence as the sheet's first row
and then one row per resolver row in the same order: 1 + len(rows) written
rows, contents matching positionally. -/
theorem encoder_rows_in_order (headers : List Val) (rows : List (List Val))
    (sheet_name : String) :
    (to_excel_bytes headers rows sheet_name).cells.length = 1 + rows.length ∧
    (to_excel_bytes headers rows sheet_name).cells[0]? =
      some (headers.map bindCellValue) ∧
    (∀ k : Nat, (to_excel_bytes headers rows sheet_name).cells[k + 1]? =
      (rows[k]?).map (fun r => r.map bindCellValue)) ∧
    (∀ k j : Nat,
      ((to_excel_bytes headers rows sheet_name).cells[k + 1]?).bind (fun r => r[j]?) =
        ((rows[k]?).bind (fun r => r[j]?)).map bindCellValue) := by
  refine ⟨?_, by simp [to_excel_bytes], ?_, fun k j => to_excel_cell_eq headers rows sheet_name k j⟩
  · simp only [to_excel_bytes, List.length_cons, List.length_map]
    omega
  · intro k
    simp only [to_excel_bytes, List.getElem?_cons_succ, List.getElem?_map]

/-- Claim C8: the encoder sanitizes the sheet name — the stored title never
exceeds the format's 31-character limit and holds no forbidden character, and
the encode always completes (`to_excel_bytes` is total). -/
theorem sheet_name_sanitized (headers : List Val) (rows : List (List Val))
    (sheet_name : String) :
    (to_excel_bytes headers rows sheet_name).title.length ≤ 31 ∧
    ∀ c ∈ (to_excel_bytes headers rows sheet_name).title.data,
      isForbiddenSheetChar c = false := by
  constructor
  · show ((sheet_name.data.filter (fun c => !isForbiddenSheetChar c)).take 31).length ≤ 31
    rw [List.length_take]
    omega
  · intro c hc
    have hc2 : c ∈ sheet_name.data.filter (fun c => !isForbiddenSheetChar c) :=
      List.mem_of_mem_take hc
    have hb := (List.mem_filter.mp hc2).2
    simp only [Bool.not_eq_true'] at hb
    exact hb

/-- Witness for C8: a long sheet name full of forbidden characters still
yields a short, clean title. -/
theorem sheet_name_sanitized_witness :
    (to_excel_bytes [] [] "Data/Sheet:With*Bad?Chars[AndFarTooLongAName]0123456789").title.length ≤ 31 ∧
    isForbiddenSheetChar 'D' = false := by
  have h := sheet_name_sanitized [] []
    "Data/Sheet:With*Bad?Chars[AndFarTooLongAName]0123456789"
  refine ⟨h.1, ?_⟩
  exact h.2 'D' (by decide)

/-- Claim C9: a cell value with no native spreadsheet type is coerced to its
text representation inside the produced workbook (the encode completes — the
encoder is total — rather than aborting). -/
theorem nonnative_cell_coerced (headers : List Val) (rows : List (List Val))
    (sheet_name : String) (k j : Nat) (v : Val)
    (hv : (rows[k]?).bind (fun r => r[j]?) = some v)
    (hnr : nativeRepresentable v = false) :
    ((to_excel_bytes headers rows sheet_name).cells[k + 1]?).bind (fun r => r[j]?) =
      some (ExcelCell.text (pyStr v)) := by
  rw [to_excel_cell_eq, hv]
  cases v <;> simp_all [nativeRepresentable, bindCellValue]

/-- Witness for C9: a composite (list-valued) cell is written as its text
representation while the rest of the sheet encodes normally. -/
theorem nonnative_cell_coerced_witness :
    ((to_excel_bytes [Val.vstr "A"] [[Val.vlist []]] "Data").cells[0 + 1]?).bind
        (fun r => r[0]?) = some (ExcelCell.text (pyStr (Val.vlist []))) ∧
    pyStr (Val.vlist []) = "[...]" := by
  refine ⟨?_, rfl⟩
  exact nonnative_cell_coerced [Val.vstr "A"] [[Val.vlist []]] "Data" 0 0
    (Val.vlist []) rfl rfl

/-- Witness for C7 at a concrete encode: one header row plus two data rows,
with the header written first. -/
theorem encoder_rows_in_order_witness :
    (to_excel_bytes [Val.vstr "A", Val.vstr "B"]
        [[Val.vint 1, Val.vstr "x"], [Val.vint 2, Val.vstr "y"]] "Data").cells.length
      = 1 + 2 ∧
    (to_excel_bytes [Val.vstr "A", Val.vstr "B"]
        [[Val.vint 1, Val.vstr "x"], [Val.vint 2, Val.vstr "y"]] "Data").cells[0]? =
      some ([Val.vstr "A", Val.vstr "B"].map bindCellValue) := by
  have h := encoder_rows_in_order [Val.vstr "A", Val.vstr "B"]
    [[Val.vint 1, Val.vstr "x"], [Val.vint 2, Val.vstr "y"]] "Data"
  exact ⟨h.1, h.2.1⟩
